import Mathlib

/-!
Verification of the MsczReader container-reading core
(src/engraving/io/msczreader.cpp) against its specification.

The C++ reader is shallowly embedded: QString becomes a character list,
QByteArray a list of byte values, the zip backend and the filesystem become
explicit finite contents, and the mutable reader object becomes an explicit
state record threaded through the operations.  A ghost counter records how
many enumeration passes MsczReader::meta has performed.
-/

namespace Mscz

/-- QString, modelled as its character list. -/
abbrev QStr := List Char

/-- QByteArray, modelled as a list of byte values. -/
abbrev Bytes := List Nat

/-- Character list of a string literal. -/
def qstr (s : String) : QStr := s.data

/-- Container content: relative path (forward slashes, no leading slash when
canonical) mapped to bytes, in backend enumeration order. -/
abbrev Content := List (QStr × Bytes)

/-- MsczReader::Mode from the source: Zip archive or plain directory tree. -/
inductive Mode
  | Zip
  | Dir
deriving DecidableEq, BEq, Repr

/-- Accumulator-based splitting of a path into its non-empty components
(`cur` holds the reversed current component).  This models POSIX path
resolution, where consecutive separators collapse. -/
def compsAux (cur : QStr) : QStr → List QStr
  | [] => if cur.isEmpty then [] else [cur.reverse]
  | c :: rest =>
    if c = '/' then
      if cur.isEmpty then compsAux [] rest else cur.reverse :: compsAux [] rest
    else compsAux (c :: cur) rest

/-- Non-empty components of a path. -/
def comps (p : QStr) : List QStr := compsAux [] p

/-- A path is canonical when it is exactly the slash-join of its (non-empty)
components: no leading, trailing or doubled separators.  Zip entry names and
relative file paths inside a well-formed container have this shape. -/
def isCanonical (p : QStr) : Bool :=
  (p == List.intercalate ['/'] (comps p)) && !(comps p).isEmpty

/-- Every entry path of the content is canonical. -/
def canonicalContent (c : Content) : Bool := c.all (fun e => isCanonical e.1)

/-- MQZipReader::fileInfoList of a well-formed archive holding `c`: every
entry is a file, listed in backend enumeration order.  (The status of a
well-formed archive stays NoError, so the LOGE branch of the source never
fires and is not modelled.) -/
def zipFileList (c : Content) : List QStr := c.map (·.1)

/-- MQZipReader::fileData: extraction by exact entry-name match; a missing
entry yields an empty byte array (and keeps status NoError). -/
def zipFileData (c : Content) (name : QStr) : Bytes :=
  match c.find? (fun e => e.1 == name) with
  | some e => e.2
  | none => []

/-- The ambient filesystem: a directory tree rooted at `dirRoot` (an absolute
path without trailing separator) holding the files of `files` at their
relative paths.  Only visible regular files are modelled, matching the
NoDotAndDotDot/NoSymLinks/Files filter of the source's QDirIterator. -/
structure World where
  dirRoot : QStr
  files : Content
deriving DecidableEq, Repr

/-- QDirIterator with the Subdirectories flag: the absolute paths of the
regular files under the queried root, in filesystem enumeration order. -/
def dirIterate (w : World) (root : QStr) : List QStr :=
  if root == w.dirRoot then w.files.map (fun e => w.dirRoot ++ '/' :: e.1) else []

/-- QFile::open plus readAll at an absolute path: the read succeeds when the
path resolves (componentwise, so duplicated separators collapse as on POSIX)
to one of the files of the world; any failure yields empty bytes. -/
def fsReadAbs (w : World) (p : QStr) : Bytes :=
  match w.files.find? (fun e => comps p == comps (w.dirRoot ++ '/' :: e.1)) with
  | some e => e.2
  | none => []

/-- MsczReader::Meta: the cached classification snapshot. -/
structure Meta where
  mscxFileName : QStr := []
  imageFilePaths : List QStr := []
deriving DecidableEq, Repr

/-- Modelled from the spec: Meta::isValid is declared in msczreader.h, which
is not part of the sources; the spec states the snapshot is valid once a
primary-document path or at least one classified path has been recorded. -/
def Meta.isValid (m : Meta) : Bool :=
  !m.mscxFileName.isEmpty || !m.imageFilePaths.isEmpty

/-- The mutable state of a MsczReader object.  `device` holds the archive
content seen through m_device (`none` models a null device pointer);
`readerHandle` records whether the lazily constructed MQZipReader m_reader
currently exists; `scanCount` is a ghost counter of the enumeration passes
performed by MsczReader::meta. -/
structure ReaderState where
  mode : Mode
  filePath : QStr := []
  device : Option Content := none
  selfDeviceOwner : Bool := false
  readerHandle : Bool := false
  meta : Meta := {}
  scanCount : Nat := 0
deriving DecidableEq, Repr

/-- MsczReader::MsczReader(filePath, mode).  The pointer and flag member
defaults live in the header; modelled from the spec: no stream bound, not
owner. -/
def mkPathReader (filePath : QStr) (mode : Mode) : ReaderState :=
  { mode := mode, filePath := filePath }

/-- MsczReader::MsczReader(device): Zip mode, borrowed device
(m_selfDeviceOwner = false). -/
def mkDeviceReader (d : Content) : ReaderState :=
  { mode := Mode.Zip, device := some d }

/-- QFileInfo::absolutePath: the text up to (excluding) the last separator,
i.e. the parent directory of the bound path. -/
def absolutePath (p : QStr) : QStr :=
  ((p.reverse.dropWhile (fun c => c ≠ '/')).drop 1).reverse

/-- MsczReader::rootPath. -/
def rootPath (s : ReaderState) : QStr :=
  match s.mode with
  | Mode.Zip => ['/']
  | Mode.Dir => absolutePath s.filePath

/-- Content of the bound device (empty for a null device; no claim
dereferences a null device). -/
def devContent : Option Content → Content
  | some c => c
  | none => []

/-- The fileList lambda inside MsczReader::meta: Zip mode keeps the file
entries of the archive listing; Dir mode iterates the root recursively and
strips the root from each absolute path with QString::mid(root.length()). -/
def fileList (w : World) (s : ReaderState) : List QStr :=
  match s.mode with
  | Mode.Zip => zipFileList (devContent s.device)
  | Mode.Dir =>
    let root := rootPath s
    (dirIterate w root).map (fun p => p.drop root.length)

/-- QString::endsWith(".mscx") on a path. -/
def isMscx (p : QStr) : Bool := (qstr ".mscx").isSuffixOf p

/-- QString::startsWith("Pictures/") on a path. -/
def isPic (p : QStr) : Bool := (qstr "Pictures/").isPrefixOf p

/-- The classification of one path inside the loop of MsczReader::meta. -/
def classify (m : Meta) (f : QStr) : Meta :=
  if isMscx f then { m with mscxFileName := f }
  else if isPic f then { m with imageFilePaths := m.imageFilePaths ++ [f] }
  else m

/-- The classification loop of MsczReader::meta, run over the current cached
snapshot (mscxFileName is overwritten, imageFilePaths is appended to). -/
def scanMeta (m : Meta) (files : List QStr) : Meta := files.foldl classify m

/-- MsczReader::meta: return the cached snapshot when valid, otherwise run
one enumeration pass and cache the result.  In Zip mode reader() materializes
m_reader.  scanCount counts the enumeration passes. -/
def metaCall (w : World) (s : ReaderState) : Meta × ReaderState :=
  if s.meta.isValid then (s.meta, s)
  else
    let m := scanMeta s.meta (fileList w s)
    (m, { s with meta := m, scanCount := s.scanCount + 1,
                 readerHandle := s.readerHandle || s.mode == Mode.Zip })

/-- MsczReader::fileData: Zip mode extracts by entry name from the archive;
Dir mode reads rootPath() + "/" + fileName from the filesystem.  Both
failure branches return empty bytes after logging.  (Only the value is
modelled here; m_reader materialization is tracked where a claim observes
it.) -/
def fileData (w : World) (s : ReaderState) (name : QStr) : Bytes :=
  match s.mode with
  | Mode.Zip => zipFileData (devContent s.device) name
  | Mode.Dir => fsReadAbs w (rootPath s ++ '/' :: name)

/-- MsczReader::readScoreFile: fileData(meta().mscxFileName). -/
def readScoreFile (w : World) (s : ReaderState) : Bytes × ReaderState :=
  let r := metaCall w s
  (fileData w r.2 r.1.mscxFileName, r.2)

/-- MsczReader::readThumbnailFile. -/
def readThumbnailFile (w : World) (s : ReaderState) : Bytes :=
  fileData w s (qstr "Thumbnails/thumbnail.png")

/-- MsczReader::readImageFile. -/
def readImageFile (w : World) (s : ReaderState) (name : QStr) : Bytes :=
  fileData w s (qstr "Pictures/" ++ name)

/-- QFileInfo::fileName: the final path component. -/
def fileNameOf (p : QStr) : QStr := (p.reverse.takeWhile (fun c => c ≠ '/')).reverse

/-- MsczReader::imageFileNames: the basename of every cached image path, in
cache order. -/
def imageFileNames (w : World) (s : ReaderState) : List QStr × ReaderState :=
  let r := metaCall w s
  (r.1.imageFilePaths.map fileNameOf, r.2)

/-- MsczReader::readAudioFile. -/
def readAudioFile (w : World) (s : ReaderState) : Bytes :=
  fileData w s (qstr "audio.ogg")

/-- MsczReader::readAudioSettingsJsonFile. -/
def readAudioSettingsJsonFile (w : World) (s : ReaderState) : Bytes :=
  fileData w s (qstr "audiosettings.json")

/-- MsczReader::setDevice: drops m_reader, adopts the new borrowed device,
and force-switches Dir mode to Zip.  The Bool reports whether the LOGW
mode-change warning was emitted.  Note that m_meta is left untouched. -/
def setDevice (s : ReaderState) (d : Content) : ReaderState × Bool :=
  ({ s with readerHandle := false, device := some d, selfDeviceOwner := false,
            mode := Mode.Zip }, s.mode == Mode.Dir)

/-- MsczReader::setFilePath: rebinds the path and drops m_reader; mode and
m_meta are untouched. -/
def setFilePath (s : ReaderState) (p : QStr) : ReaderState :=
  { s with filePath := p, readerHandle := false }

/-- MsczReader::setMode: plain assignment of m_mode. -/
def setMode (s : ReaderState) (m : Mode) : ReaderState := { s with mode := m }

/-- MsczReader::~MsczReader frees m_device exactly when m_selfDeviceOwner
holds. -/
def destructorReleasesDevice (s : ReaderState) : Bool := s.selfDeviceOwner

/-- One public operation on the reader, for the temporal claims.  open,
close and the raw reads touch only the device-open status, which carries no
modelled state. -/
inductive Op
  | setDev (d : Content)
  | setPath (p : QStr)
  | setModeOp (m : Mode)
  | metaOp
  | openOp
  | closeOp
  | readOp (name : QStr)
deriving DecidableEq, Repr

/-- Effect of one public operation on the reader state. -/
def step (w : World) (s : ReaderState) : Op → ReaderState
  | Op.setDev d => (setDevice s d).1
  | Op.setPath p => setFilePath s p
  | Op.setModeOp m => setMode s m
  | Op.metaOp => (metaCall w s).2
  | Op.openOp => s
  | Op.closeOp => s
  | Op.readOp _ => s

/-! Helper lemmas about path components, the classification scan, and the
branch structure of metaCall. -/

theorem compsAux_append_slash (xs : QStr) : ∀ (cur ys : QStr),
    compsAux cur (xs ++ '/' :: ys) = compsAux cur xs ++ compsAux [] ys := by
  induction xs with
  | nil =>
    intro cur ys
    by_cases h : cur.isEmpty <;> simp [compsAux, h]
  | cons c rest ih =>
    intro cur ys
    by_cases hc : c = '/'
    · by_cases h : cur.isEmpty <;> simp [compsAux, hc, h, ih]
    · simp [compsAux, hc, ih]

theorem comps_append_slash (a b : QStr) : comps (a ++ '/' :: b) = comps a ++ comps b :=
  compsAux_append_slash a [] b

theorem comps_slash_cons (b : QStr) : comps ('/' :: b) = comps b := by
  have h := comps_append_slash [] b
  simpa using h

theorem isCanonical_join {p : QStr} (h : isCanonical p = true) :
    List.intercalate ['/'] (comps p) = p := by
  unfold isCanonical at h
  simp only [Bool.and_eq_true, beq_iff_eq] at h
  exact h.1.symm

theorem comps_ne_nil_of_canonical {p : QStr} (h : isCanonical p = true) : comps p ≠ [] := by
  unfold isCanonical at h
  simp only [Bool.and_eq_true, Bool.not_eq_true', List.isEmpty_eq_false] at h
  exact h.2

theorem comps_inj_of_canonical {p q : QStr} (hp : isCanonical p = true)
    (hq : isCanonical q = true) (h : comps p = comps q) : p = q := by
  rw [← isCanonical_join hp, ← isCanonical_join hq, h]

theorem canonical_of_mem {c : Content} {e : QStr × Bytes} (hwf : canonicalContent c = true)
    (he : e ∈ c) : isCanonical e.1 = true := by
  unfold canonicalContent at hwf
  rw [List.all_eq_true] at hwf
  exact hwf e he

theorem dropWhile_no_slash : ∀ (l : QStr), (∀ c ∈ l, c ≠ '/') →
    ∀ rest : QStr, (l ++ '/' :: rest).dropWhile (fun c => c ≠ '/') = '/' :: rest := by
  intro l
  induction l with
  | nil => intro _ rest; simp
  | cons c t ih =>
    intro h rest
    have hc : c ≠ '/' := h c (by simp)
    simp only [List.cons_append]
    rw [List.dropWhile_cons_of_pos (by simpa using hc)]
    exact ih (fun x hx => h x (by simp [hx])) rest

theorem absolutePath_append {root base : QStr} (h : '/' ∉ base) :
    absolutePath (root ++ '/' :: base) = root := by
  unfold absolutePath
  rw [List.reverse_append, List.reverse_cons, List.append_assoc]
  rw [show ['/'] ++ root.reverse = '/' :: root.reverse from rfl]
  rw [dropWhile_no_slash base.reverse
        (fun c hc hceq => h (by rw [← hceq]; exact List.mem_reverse.mp hc)) root.reverse]
  simp

theorem isMscx_slash_cons (p : QStr) : isMscx ('/' :: p) = isMscx p := by
  unfold isMscx
  rw [Bool.eq_iff_iff]
  simp only [List.isSuffixOf_iff_suffix, List.suffix_cons_iff]
  constructor
  · rintro (h | h)
    · have h0 : qstr ".mscx" = '.' :: qstr "mscx" := rfl
      rw [h0] at h
      injection h with h1 _
      exact absurd h1 (by decide)
    · exact h
  · exact Or.inr

theorem isPic_slash_cons (p : QStr) : isPic ('/' :: p) = false := by
  unfold isPic
  rw [show qstr "Pictures/" = 'P' :: qstr "ictures/" from rfl]
  simp [List.isPrefixOf]

/-- A path is appended as an image iff it is not an mscx candidate and has
the Pictures top folder (the else-if chain of the classification loop). -/
def isPicOnly (f : QStr) : Bool := !isMscx f && isPic f

theorem classify_mscx_of_pos {m : Meta} {f : QStr} (h : isMscx f = true) :
    (classify m f).mscxFileName = f := by
  simp [classify, h]

theorem classify_mscx_of_neg {m : Meta} {f : QStr} (h : isMscx f = false) :
    (classify m f).mscxFileName = m.mscxFileName := by
  cases hp : isPic f <;> simp [classify, h, hp]

theorem classify_images_of_mscx {m : Meta} {f : QStr} (h : isMscx f = true) :
    (classify m f).imageFilePaths = m.imageFilePaths := by
  simp [classify, h]

theorem classify_images_of_pic {m : Meta} {f : QStr} (h1 : isMscx f = false)
    (h2 : isPic f = true) :
    (classify m f).imageFilePaths = m.imageFilePaths ++ [f] := by
  simp [classify, h1, h2]

theorem classify_images_of_other {m : Meta} {f : QStr} (h1 : isMscx f = false)
    (h2 : isPic f = false) :
    (classify m f).imageFilePaths = m.imageFilePaths := by
  simp [classify, h1, h2]

theorem scanMeta_mscx : ∀ (files : List QStr) (m : Meta),
    (scanMeta m files).mscxFileName = (files.filter isMscx).getLastD m.mscxFileName := by
  intro files
  induction files with
  | nil => intro m; rfl
  | cons f t ih =>
    intro m
    show (scanMeta (classify m f) t).mscxFileName = _
    cases h : isMscx f with
    | true =>
      rw [ih, List.filter_cons_of_pos h, List.getLastD_cons, classify_mscx_of_pos h]
    | false =>
      rw [ih, List.filter_cons_of_neg (by simp [h]), classify_mscx_of_neg h]

theorem scanMeta_images : ∀ (files : List QStr) (m : Meta),
    (scanMeta m files).imageFilePaths = m.imageFilePaths ++ files.filter isPicOnly := by
  intro files
  induction files with
  | nil => intro m; simp [scanMeta]
  | cons f t ih =>
    intro m
    show (scanMeta (classify m f) t).imageFilePaths = _
    cases h : isMscx f with
    | true =>
      rw [ih, List.filter_cons_of_neg (by simp [isPicOnly, h]), classify_images_of_mscx h]
    | false =>
      cases hp : isPic f with
      | true =>
        rw [ih, List.filter_cons_of_pos (by simp [isPicOnly, h, hp]),
          classify_images_of_pic h hp, List.append_assoc]
        rfl
      | false =>
        rw [ih, List.filter_cons_of_neg (by simp [isPicOnly, h, hp]),
          classify_images_of_other h hp]

theorem find_of_filter_single : ∀ (c : Content) (P M : QStr × Bytes → Bool)
    (x : QStr × Bytes), c.filter P = [x] → (∀ e ∈ c, M e = (e.1 == x.1)) →
    (∀ e ∈ c, e.1 = x.1 → P e = true) → c.find? M = some x := by
  intro c
  induction c with
  | nil => intro P M x h _ _; simp at h
  | cons e t ih =>
    intro P M x hf hM hP
    by_cases hPe : P e = true
    · rw [List.filter_cons_of_pos hPe] at hf
      have he : e = x := (List.cons.injEq _ _ _ _ ▸ hf).1
      have hMe : M e = true := by
        rw [hM e (List.mem_cons_self e t), he, beq_self_eq_true]
      rw [List.find?_cons_of_pos t hMe, he]
    · rw [List.filter_cons_of_neg (by simpa using hPe)] at hf
      have hne : e.1 ≠ x.1 := fun hx => hPe (hP e (List.mem_cons_self e t) hx)
      have hMe : M e = false := by
        rw [hM e (List.mem_cons_self e t)]
        exact beq_eq_false_iff_ne.mpr hne
      rw [List.find?_cons_of_neg t (by simp [hMe])]
      exact ih P M x hf (fun a ha => hM a (List.mem_cons_of_mem e ha))
        (fun a ha => hP a (List.mem_cons_of_mem e ha))

theorem metaCall_valid {s : ReaderState} (w : World) (h : s.meta.isValid = true) :
    metaCall w s = (s.meta, s) := by
  unfold metaCall
  rw [h]
  simp

theorem metaCall_invalid {s : ReaderState} (w : World) (h : s.meta.isValid = false) :
    metaCall w s =
      (scanMeta s.meta (fileList w s),
       { s with meta := scanMeta s.meta (fileList w s), scanCount := s.scanCount + 1,
                readerHandle := s.readerHandle || s.mode == Mode.Zip }) := by
  unfold metaCall
  rw [h]
  simp

theorem metaCall_snd_mode (w : World) (s : ReaderState) :
    ((metaCall w s).2).mode = s.mode := by
  unfold metaCall
  split
  · rfl
  · rfl

theorem fileData_metaCall (w : World) (s : ReaderState) (name : QStr) :
    fileData w (metaCall w s).2 name = fileData w s name := by
  unfold metaCall
  split
  · rfl
  · cases s with
    | mk mo fp dev own rh me sc => cases mo <;> rfl

theorem fileList_update (w : World) (s : ReaderState) (m : Meta) (sc : Nat) (rh : Bool) :
    fileList w { s with meta := m, scanCount := sc, readerHandle := rh } = fileList w s := by
  cases s with
  | mk mo fp dev own rh0 me0 sc0 => cases mo <;> rfl

theorem meta_eq_of {a b : Meta} (h1 : a.mscxFileName = b.mscxFileName)
    (h2 : a.imageFilePaths = b.imageFilePaths) : a = b := by
  cases a
  cases b
  simp_all

theorem metaCall_fst_eq_meta (w : World) (s : ReaderState) :
    (metaCall w s).1 = (metaCall w s).2.meta := by
  unfold metaCall
  split
  · rfl
  · rfl

theorem metaCall_fileList (w : World) (s : ReaderState) :
    fileList w (metaCall w s).2 = fileList w s := by
  unfold metaCall
  split
  · rfl
  · cases s with
    | mk mo fp dev own rh me sc => cases mo <;> rfl

theorem meta_invalid_eq_empty {m : Meta} (hv : m.isValid = false) : m = {} := by
  unfold Meta.isValid at hv
  rw [Bool.or_eq_false_iff] at hv
  obtain ⟨h1, h2⟩ := hv
  rw [Bool.not_eq_false'] at h1 h2
  apply meta_eq_of
  · rw [show ({} : Meta).mscxFileName = [] from rfl]
    exact List.isEmpty_iff.mp h1
  · rw [show ({} : Meta).imageFilePaths = [] from rfl]
    exact List.isEmpty_iff.mp h2

theorem scanMeta_rescan {m : Meta} (files : List QStr) (hv : m.isValid = false) :
    scanMeta m files = scanMeta {} files := by
  rw [meta_invalid_eq_empty hv]

/-! Claim theorems. -/

/-- C10: setDevice always records the rebound stream as borrowed
(m_selfDeviceOwner = false), so the destructor never frees a rebound
device. -/
theorem c10_rebound_not_owned (s : ReaderState) (d : Content) :
    (setDevice s d).1.selfDeviceOwner = false
    ∧ destructorReleasesDevice (setDevice s d).1 = false :=
  ⟨rfl, rfl⟩

/-- C8 counterexample: the claim says a transition from Archive (Zip) mode to
Directory mode never occurs along any operation sequence, but the public
setMode operation performs exactly that transition. -/
theorem c8_counterexample :
    (mkDeviceReader []).mode = Mode.Zip
    ∧ (step ⟨[], []⟩ (mkDeviceReader []) (Op.setModeOp Mode.Dir)).mode = Mode.Dir :=
  ⟨rfl, rfl⟩

/-- C8 amended: no operation other than setMode can make the mode Directory:
if a step ends in Directory mode, either the reader already was in Directory
mode or the operation was setMode(Directory).  In particular setDevice only
upgrades Directory to Archive. -/
theorem c8_amended (w : World) (s : ReaderState) (op : Op)
    (h : (step w s op).mode = Mode.Dir) :
    s.mode = Mode.Dir ∨ op = Op.setModeOp Mode.Dir := by
  cases op with
  | setDev d => exact Mode.noConfusion h
  | setPath p => exact Or.inl h
  | setModeOp m =>
    right
    have hm : m = Mode.Dir := h
    rw [hm]
  | metaOp =>
    left
    rw [← metaCall_snd_mode w s]
    exact h
  | openOp => exact Or.inl h
  | closeOp => exact Or.inl h
  | readOp n => exact Or.inl h

def c8World : World := ⟨qstr "/r", []⟩

def c8DirReader : ReaderState := mkPathReader (qstr "/r/f") Mode.Dir

/-- C8 witness: the amended theorem applied to a Directory-mode reader and a
meta operation. -/
theorem c8_witness :
    (step c8World c8DirReader Op.metaOp).mode = Mode.Dir
    ∧ (c8DirReader.mode = Mode.Dir ∨ Op.metaOp = Op.setModeOp Mode.Dir) :=
  ⟨by decide, c8_amended c8World c8DirReader Op.metaOp (by decide)⟩

/-- C5: with at least two mscx candidates among the enumerated files, the
resolved mscxFileName is the candidate encountered last in enumeration
order (each later candidate overwrites the earlier one). -/
theorem c5_last_wins (w : World) (s : ReaderState) (hm : s.meta = {})
    (h2 : 2 ≤ ((fileList w s).filter isMscx).length) :
    ((fileList w s).filter isMscx).getLast? = some ((metaCall w s).1.mscxFileName) := by
  have hv : s.meta.isValid = false := by rw [hm]; rfl
  have hmx : s.meta.mscxFileName = ([] : QStr) := by rw [hm]
  rw [metaCall_invalid w hv]
  show _ = some ((scanMeta s.meta (fileList w s)).mscxFileName)
  rw [scanMeta_mscx, hmx, List.getLastD_eq_getLast?]
  cases hl : ((fileList w s).filter isMscx).getLast? with
  | none =>
    rw [List.getLast?_eq_none_iff] at hl
    rw [hl] at h2
    simp at h2
  | some a => rfl

def c5Content : Content := [(qstr "a.mscx", [1]), (qstr "b.mscx", [2])]

def c5World : World := ⟨qstr "/r", []⟩

/-- C5 witness: a two-candidate archive resolves to the second candidate. -/
theorem c5_witness :
    2 ≤ ((fileList c5World (mkDeviceReader c5Content)).filter isMscx).length
    ∧ ((fileList c5World (mkDeviceReader c5Content)).filter isMscx).getLast?
        = some ((metaCall c5World (mkDeviceReader c5Content)).1.mscxFileName) :=
  ⟨by decide, c5_last_wins c5World (mkDeviceReader c5Content) rfl (by decide)⟩

/-- C9: in Directory mode every enumerated path keeps a leading separator
(the root is stripped without its trailing separator), so no enumerated path
passes the startsWith("Pictures/") test and the resolved imageFilePaths list
is always empty. -/
theorem c9_dir_enumeration (w : World) (s : ReaderState) (hmode : s.mode = Mode.Dir)
    (hm : s.meta = {}) :
    (∀ f ∈ fileList w s, f.head? = some '/')
    ∧ (∀ f ∈ fileList w s, isPic f = false)
    ∧ (metaCall w s).1.imageFilePaths = [] := by
  obtain ⟨mo, fp, dev, own, rh, me, sc⟩ := s
  replace hmode : mo = Mode.Dir := hmode
  replace hm : me = ({} : Meta) := hm
  subst hmode
  subst hm
  have hv : (ReaderState.mk Mode.Dir fp dev own rh {} sc).meta.isValid = false := rfl
  cases hr : (absolutePath fp == w.dirRoot) with
  | false =>
    have hfl : fileList w (ReaderState.mk Mode.Dir fp dev own rh {} sc) = [] := by
      show (dirIterate w (absolutePath fp)).map _ = []
      unfold dirIterate
      rw [hr]
      rfl
    refine ⟨fun f hf => absurd hf (by rw [hfl]; simp), fun f hf => absurd hf (by rw [hfl]; simp), ?_⟩
    rw [metaCall_invalid w hv]
    show (scanMeta _ _).imageFilePaths = []
    rw [scanMeta_images, hfl]
    rfl
  | true =>
    have hreq : absolutePath fp = w.dirRoot := by simpa using hr
    have hfl : fileList w (ReaderState.mk Mode.Dir fp dev own rh {} sc)
        = w.files.map (fun e => '/' :: e.1) := by
      show (dirIterate w (absolutePath fp)).map
        (fun p => p.drop (absolutePath fp).length) = _
      rw [hreq]
      unfold dirIterate
      rw [beq_self_eq_true]
      rw [if_pos rfl, List.map_map]
      apply List.map_congr_left
      intro e _
      show (w.dirRoot ++ '/' :: e.1).drop w.dirRoot.length = '/' :: e.1
      exact List.drop_left w.dirRoot ('/' :: e.1)
    refine ⟨?_, ?_, ?_⟩
    · intro f hf
      rw [hfl] at hf
      obtain ⟨e, _, rfl⟩ := List.mem_map.mp hf
      rfl
    · intro f hf
      rw [hfl] at hf
      obtain ⟨e, _, rfl⟩ := List.mem_map.mp hf
      exact isPic_slash_cons e.1
    · rw [metaCall_invalid w hv]
      show (scanMeta _ _).imageFilePaths = []
      rw [scanMeta_images, hfl]
      rw [show ({} : Meta).imageFilePaths = [] from rfl, List.nil_append]
      rw [List.filter_eq_nil_iff]
      intro a ha
      obtain ⟨e, _, rfl⟩ := List.mem_map.mp ha
      simp [isPicOnly, isPic_slash_cons]

def c9World : World := ⟨qstr "/r", [(qstr "Pictures/a.png", [3]), (qstr "s.mscx", [1])]⟩

def c9Reader : ReaderState := mkPathReader (qstr "/r/f") Mode.Dir

/-- C9 witness: a directory container holding a Pictures file still resolves
an empty imageFilePaths list. -/
theorem c9_witness :
    c9Reader.mode = Mode.Dir ∧ c9Reader.meta = {}
    ∧ (metaCall c9World c9Reader).1.imageFilePaths = [] :=
  ⟨rfl, rfl, (c9_dir_enumeration c9World c9Reader rfl rfl).2.2⟩

/-- C7: reading a relative path that matches no stored entry (exactly in
archive mode, after separator collapsing in directory mode) yields empty
bytes; fileData is total, so no hard error can be raised. -/
theorem c7_missing_entry (w : World) (s : ReaderState) (name : QStr)
    (hzip : ∀ e ∈ devContent s.device, e.1 ≠ name)
    (hdir : ∀ e ∈ w.files, comps e.1 ≠ comps name)
    (hroot : s.mode = Mode.Dir → rootPath s = w.dirRoot) :
    fileData w s name = [] := by
  obtain ⟨mo, fp, dev, own, rh, me, sc⟩ := s
  cases mo with
  | Zip =>
    show zipFileData (devContent dev) name = []
    unfold zipFileData
    have h : (devContent dev).find? (fun e => e.1 == name) = none := by
      rw [List.find?_eq_none]
      intro e he
      simpa using hzip e he
    rw [h]
  | Dir =>
    have hr : rootPath (ReaderState.mk Mode.Dir fp dev own rh me sc) = w.dirRoot :=
      hroot rfl
    show fsReadAbs w (rootPath (ReaderState.mk Mode.Dir fp dev own rh me sc)
      ++ '/' :: name) = []
    rw [hr]
    unfold fsReadAbs
    have h : w.files.find?
        (fun e => comps (w.dirRoot ++ '/' :: name) == comps (w.dirRoot ++ '/' :: e.1))
        = none := by
      rw [List.find?_eq_none]
      intro e he
      simp only [comps_append_slash, beq_iff_eq, List.append_right_inj]
      exact fun hc => hdir e he hc.symm
    rw [h]

def c7World : World := ⟨qstr "/r", [(qstr "Score.mscx", [1])]⟩

def c7Reader : ReaderState := mkDeviceReader [(qstr "Score.mscx", [1])]

/-- C7 witness: readImage("missing.png") on a valid container returns empty
bytes. -/
theorem c7_witness :
    readImageFile c7World c7Reader (qstr "missing.png") = [] :=
  c7_missing_entry c7World c7Reader (qstr "Pictures/" ++ qstr "missing.png")
    (by decide) (by decide) (by decide)

def c2World : World := ⟨qstr "/r", [(qstr "a.mscx", [1])]⟩

def c2DirReader : ReaderState := mkPathReader (qstr "/r/f") Mode.Dir

def c2Rebound : ReaderState :=
  (setDevice (metaCall c2World c2DirReader).2 [(qstr "b.mscx", [2])]).1

/-- C2 counterexample: after a metadata scan on a Directory-mode reader,
setDevice switches the mode to Zip with the warning, but it does NOT
invalidate the cached snapshot: the next metadata call returns the stale
Directory-derived snapshot ("/a.mscx") without a fresh enumeration
(scanCount stays 1), although a fresh scan of the rebound archive would
resolve "b.mscx". -/
theorem c2_counterexample :
    c2Rebound.mode = Mode.Zip
    ∧ (setDevice (metaCall c2World c2DirReader).2 [(qstr "b.mscx", [2])]).2 = true
    ∧ (metaCall c2World c2Rebound).1.mscxFileName = qstr "/a.mscx"
    ∧ (metaCall c2World c2Rebound).2.scanCount = 1
    ∧ (scanMeta {} (fileList c2World c2Rebound)).mscxFileName = qstr "b.mscx" := by
  decide

/-- C2 amended: setDevice switches the mode to Zip (warning emitted exactly
when the previous mode was Directory) and discards the archive handle, but
the cached metadata snapshot is NOT invalidated: when the cached snapshot is
valid, the next metadata call returns it unchanged without re-scanning. -/
theorem c2_amended (s : ReaderState) (d : Content) (w : World)
    (hv : s.meta.isValid = true) :
    (setDevice s d).1.mode = Mode.Zip
    ∧ (setDevice s d).2 = (s.mode == Mode.Dir)
    ∧ (setDevice s d).1.readerHandle = false
    ∧ (setDevice s d).1.meta = s.meta
    ∧ metaCall w (setDevice s d).1 = (s.meta, (setDevice s d).1) := by
  have hmeta : (setDevice s d).1.meta = s.meta := rfl
  refine ⟨rfl, rfl, rfl, rfl, ?_⟩
  rw [metaCall_valid w (by rw [hmeta]; exact hv)]
  rw [hmeta]

def c2ValidReader : ReaderState :=
  { mkDeviceReader [] with meta := { mscxFileName := qstr "a.mscx" } }

def c2WitWorld : World := ⟨[], []⟩

/-- C2 witness: the amended theorem at a reader holding a valid cached
snapshot. -/
theorem c2_witness :
    (setDevice c2ValidReader []).1.mode = Mode.Zip
    ∧ (setDevice c2ValidReader []).2 = (c2ValidReader.mode == Mode.Dir)
    ∧ (setDevice c2ValidReader []).1.readerHandle = false
    ∧ (setDevice c2ValidReader []).1.meta = c2ValidReader.meta
    ∧ metaCall c2WitWorld (setDevice c2ValidReader []).1
        = (c2ValidReader.meta, (setDevice c2ValidReader []).1) :=
  c2_amended c2ValidReader [] c2WitWorld (by decide)

def c3World : World := ⟨qstr "/r", []⟩

def c3Reader : ReaderState := mkDeviceReader [(qstr "Thumbnails/thumbnail.png", [7])]

/-- C3 counterexample: a container whose scan classifies nothing (only a
thumbnail) never produces a valid snapshot, so every metadata call performs
a fresh enumeration pass: after two calls the ghost scan counter is 2,
falsifying "at most one full enumeration pass per reader lifetime unless
invalidated by a rebind" (the returned snapshot is nevertheless
unchanged). -/
theorem c3_counterexample :
    (metaCall c3World (metaCall c3World c3Reader).2).2.scanCount = 2
    ∧ (metaCall c3World (metaCall c3World c3Reader).2).1
        = (metaCall c3World c3Reader).1 := by
  decide

/-- C3 amended: after the first metadata call on a fresh reader, every later
metadata call returns the identical snapshot and leaves the cache unchanged
(in particular imageFilePaths never accumulates duplicates); a second
enumeration pass is avoided exactly when the first snapshot is valid, while
an all-empty snapshot triggers a re-scan (with identical result) on every
call. -/
theorem c3_amended (w : World) (s : ReaderState) (hm : s.meta = {}) :
    (metaCall w (metaCall w s).2).1 = (metaCall w s).1
    ∧ (metaCall w (metaCall w s).2).2.meta = (metaCall w s).2.meta
    ∧ ((metaCall w s).1.isValid = true →
        (metaCall w (metaCall w s).2).2.scanCount = (metaCall w s).2.scanCount)
    ∧ ((metaCall w s).1.isValid = false →
        (metaCall w (metaCall w s).2).2.scanCount = (metaCall w s).2.scanCount + 1) := by
  cases hval : (metaCall w s).1.isValid with
  | true =>
    have hmeta : (metaCall w s).2.meta.isValid = true := by
      rw [← metaCall_fst_eq_meta]
      exact hval
    rw [metaCall_valid w hmeta]
    exact ⟨(metaCall_fst_eq_meta w s).symm, rfl, fun _ => rfl,
      fun hf => by simp [hval] at hf⟩
  | false =>
    have hmeta : (metaCall w s).2.meta.isValid = false := by
      rw [← metaCall_fst_eq_meta]
      exact hval
    have hm2 : scanMeta (metaCall w s).2.meta (fileList w (metaCall w s).2)
        = (metaCall w s).1 := by
      rw [metaCall_fileList, scanMeta_rescan _ hmeta, ← hm]
      have hv : s.meta.isValid = false := by rw [hm]; rfl
      rw [metaCall_invalid w hv]
    rw [metaCall_invalid w hmeta]
    refine ⟨hm2, ?_, fun ht => by simp [hval] at ht, fun _ => rfl⟩
    show scanMeta (metaCall w s).2.meta (fileList w (metaCall w s).2)
      = (metaCall w s).2.meta
    rw [hm2, metaCall_fst_eq_meta]

def c3WitWorld : World := ⟨qstr "/p", []⟩

def c3WitReader : ReaderState := mkDeviceReader [(qstr "s.mscx", [1])]

/-- C3 witness: the amended theorem at a fresh archive reader whose scan
finds a primary document. -/
theorem c3_witness :
    (metaCall c3WitWorld (metaCall c3WitWorld c3WitReader).2).1
        = (metaCall c3WitWorld c3WitReader).1
    ∧ (metaCall c3WitWorld (metaCall c3WitWorld c3WitReader).2).2.meta
        = (metaCall c3WitWorld c3WitReader).2.meta
    ∧ ((metaCall c3WitWorld c3WitReader).1.isValid = true →
        (metaCall c3WitWorld (metaCall c3WitWorld c3WitReader).2).2.scanCount
          = (metaCall c3WitWorld c3WitReader).2.scanCount)
    ∧ ((metaCall c3WitWorld c3WitReader).1.isValid = false →
        (metaCall c3WitWorld (metaCall c3WitWorld c3WitReader).2).2.scanCount
          = (metaCall c3WitWorld c3WitReader).2.scanCount + 1) :=
  c3_amended c3WitWorld c3WitReader rfl

theorem fileList_dir (w : World) (s : ReaderState) (hmode : s.mode = Mode.Dir)
    (hroot : rootPath s = w.dirRoot) :
    fileList w s = w.files.map (fun e => '/' :: e.1) := by
  obtain ⟨mo, fp, dev, own, rh, me, sc⟩ := s
  replace hmode : mo = Mode.Dir := hmode
  subst hmode
  replace hroot : absolutePath fp = w.dirRoot := hroot
  show (dirIterate w (absolutePath fp)).map (fun p => p.drop (absolutePath fp).length) = _
  rw [hroot]
  unfold dirIterate
  rw [beq_self_eq_true, if_pos rfl, List.map_map]
  apply List.map_congr_left
  intro e _
  show (w.dirRoot ++ '/' :: e.1).drop w.dirRoot.length = '/' :: e.1
  exact List.drop_left w.dirRoot ('/' :: e.1)

theorem fileData_zip (w : World) (s : ReaderState) (name : QStr)
    (hmode : s.mode = Mode.Zip) :
    fileData w s name = zipFileData (devContent s.device) name := by
  obtain ⟨mo, fp, dev, own, rh, me, sc⟩ := s
  replace hmode : mo = Mode.Zip := hmode
  subst hmode
  rfl

theorem fileData_dir (w : World) (s : ReaderState) (name : QStr)
    (hmode : s.mode = Mode.Dir) :
    fileData w s name = fsReadAbs w (rootPath s ++ '/' :: name) := by
  obtain ⟨mo, fp, dev, own, rh, me, sc⟩ := s
  replace hmode : mo = Mode.Dir := hmode
  subst hmode
  rfl

theorem zipFileData_find (c : Content) (name : QStr) (x : QStr × Bytes)
    (h : c.find? (fun e => e.1 == name) = some x) :
    zipFileData c name = x.2 := by
  unfold zipFileData
  rw [h]

theorem zipFileData_none (c : Content) (name : QStr)
    (h : c.find? (fun e => e.1 == name) = none) :
    zipFileData c name = [] := by
  unfold zipFileData
  rw [h]

theorem fsReadAbs_find (w : World) (p : QStr) (x : QStr × Bytes)
    (h : w.files.find? (fun e => comps p == comps (w.dirRoot ++ '/' :: e.1)) = some x) :
    fsReadAbs w p = x.2 := by
  unfold fsReadAbs
  rw [h]

theorem fsReadAbs_none (w : World) (p : QStr)
    (h : w.files.find? (fun e => comps p == comps (w.dirRoot ++ '/' :: e.1)) = none) :
    fsReadAbs w p = [] := by
  unfold fsReadAbs
  rw [h]

theorem filter_mscx_entries (c : Content) :
    (c.map (·.1)).filter isMscx = (c.filter (fun e => isMscx e.1)).map (·.1) := by
  rw [List.filter_map]
  rfl

theorem filter_mscx_slash (c : Content) :
    (c.map (fun e => '/' :: e.1)).filter isMscx
      = (c.filter (fun e => isMscx e.1)).map (fun e => '/' :: e.1) := by
  rw [List.filter_map]
  congr 1
  apply List.filter_congr
  intro e _
  show isMscx ('/' :: e.1) = isMscx e.1
  exact isMscx_slash_cons e.1

/-- C1: the Archive-mode and Directory-mode readers over identical content do
NOT agree on every role-based accessor: the image list diverges (Zip resolves
["a.png"], Dir resolves []) because Directory-mode enumeration keeps a
leading separator on every path, while the other accessors shown here
agree. -/
theorem c1_divergence :
    (imageFileNames (World.mk (qstr "/r") [(qstr "Score.mscx", [1]),
        (qstr "Pictures/a.png", [2]), (qstr "Thumbnails/thumbnail.png", [3])])
        (mkDeviceReader [(qstr "Score.mscx", [1]), (qstr "Pictures/a.png", [2]),
        (qstr "Thumbnails/thumbnail.png", [3])])).1 = [qstr "a.png"]
    ∧ (imageFileNames (World.mk (qstr "/r") [(qstr "Score.mscx", [1]),
        (qstr "Pictures/a.png", [2]), (qstr "Thumbnails/thumbnail.png", [3])])
        (mkPathReader (qstr "/r/c.mscz") Mode.Dir)).1 = []
    ∧ (readScoreFile (World.mk (qstr "/r") [(qstr "Score.mscx", [1]),
        (qstr "Pictures/a.png", [2]), (qstr "Thumbnails/thumbnail.png", [3])])
        (mkDeviceReader [(qstr "Score.mscx", [1]), (qstr "Pictures/a.png", [2]),
        (qstr "Thumbnails/thumbnail.png", [3])])).1 = [1]
    ∧ (readScoreFile (World.mk (qstr "/r") [(qstr "Score.mscx", [1]),
        (qstr "Pictures/a.png", [2]), (qstr "Thumbnails/thumbnail.png", [3])])
        (mkPathReader (qstr "/r/c.mscz") Mode.Dir)).1 = [1]
    ∧ readThumbnailFile (World.mk (qstr "/r") [(qstr "Score.mscx", [1]),
        (qstr "Pictures/a.png", [2]), (qstr "Thumbnails/thumbnail.png", [3])])
        (mkDeviceReader [(qstr "Score.mscx", [1]), (qstr "Pictures/a.png", [2]),
        (qstr "Thumbnails/thumbnail.png", [3])]) = [3]
    ∧ readThumbnailFile (World.mk (qstr "/r") [(qstr "Score.mscx", [1]),
        (qstr "Pictures/a.png", [2]), (qstr "Thumbnails/thumbnail.png", [3])])
        (mkPathReader (qstr "/r/c.mscz") Mode.Dir) = [3] := by
  decide

/-- C4 counterexample: a directory container with exactly one mscx entry
"Score.mscx" resolves mscxFileName = "/Score.mscx", which is not the entry's
relative path. -/
theorem c4_counterexample :
    (World.mk (qstr "/r") [(qstr "Score.mscx", [1]),
        (qstr "Thumbnails/thumbnail.png", [2])]).files.filter (fun e => isMscx e.1)
      = [(qstr "Score.mscx", [1])]
    ∧ (metaCall (World.mk (qstr "/r") [(qstr "Score.mscx", [1]),
        (qstr "Thumbnails/thumbnail.png", [2])])
        (mkPathReader (qstr "/r/f") Mode.Dir)).1.mscxFileName = qstr "/Score.mscx"
    ∧ (metaCall (World.mk (qstr "/r") [(qstr "Score.mscx", [1]),
        (qstr "Thumbnails/thumbnail.png", [2])])
        (mkPathReader (qstr "/r/f") Mode.Dir)).1.mscxFileName ≠ qstr "Score.mscx" := by
  decide

/-- C4 amended: for a canonical container with exactly one mscx entry,
readScoreFile returns that entry's bytes in both modes; mscxFileName equals
the entry's relative path in Archive mode, while in Directory mode it is the
relative path preceded by the separator (the read still resolves because the
doubled separator collapses). -/
theorem c4_amended (root base : QStr) (c : Content) (p : QStr) (d : Bytes)
    (hwf : canonicalContent c = true)
    (hfilt : c.filter (fun e => isMscx e.1) = [(p, d)])
    (hbase : '/' ∉ base) :
    ((metaCall (World.mk root c) (mkDeviceReader c)).1.mscxFileName = p
      ∧ (readScoreFile (World.mk root c) (mkDeviceReader c)).1 = d)
    ∧ ((metaCall (World.mk root c)
          (mkPathReader (root ++ '/' :: base) Mode.Dir)).1.mscxFileName = '/' :: p
      ∧ (readScoreFile (World.mk root c)
          (mkPathReader (root ++ '/' :: base) Mode.Dir)).1 = d) := by
  have hmemf : (p, d) ∈ c.filter (fun e => isMscx e.1) := by
    rw [hfilt]
    exact List.mem_cons_self _ _
  have hmem : (p, d) ∈ c := (List.mem_filter.mp hmemf).1
  have hpm : isMscx p = true := (List.mem_filter.mp hmemf).2
  have hpc : isCanonical p = true := canonical_of_mem hwf hmem
  have hvZ : (mkDeviceReader c).meta.isValid = false := rfl
  have hmscxZ : (metaCall (World.mk root c) (mkDeviceReader c)).1.mscxFileName = p := by
    rw [metaCall_invalid (World.mk root c) hvZ]
    show (scanMeta {} (c.map (·.1))).mscxFileName = p
    rw [scanMeta_mscx, filter_mscx_entries, hfilt]
    rfl
  have hreadZ : (readScoreFile (World.mk root c) (mkDeviceReader c)).1 = d := by
    show fileData (World.mk root c) (metaCall (World.mk root c) (mkDeviceReader c)).2
      (metaCall (World.mk root c) (mkDeviceReader c)).1.mscxFileName = d
    rw [hmscxZ, fileData_metaCall]
    rw [fileData_zip (World.mk root c) (mkDeviceReader c) p rfl]
    exact zipFileData_find c p (p, d)
      (find_of_filter_single c (fun e => isMscx e.1) (fun e => e.1 == p) (p, d) hfilt
        (fun e _ => rfl) (fun e _ he => by show isMscx e.1 = true; rw [he]; exact hpm))
  have hrootD : rootPath (mkPathReader (root ++ '/' :: base) Mode.Dir) = root := by
    show absolutePath (root ++ '/' :: base) = root
    exact absolutePath_append hbase
  have hvD : (mkPathReader (root ++ '/' :: base) Mode.Dir).meta.isValid = false := rfl
  have hflD : fileList (World.mk root c) (mkPathReader (root ++ '/' :: base) Mode.Dir)
      = c.map (fun e => '/' :: e.1) :=
    fileList_dir (World.mk root c) (mkPathReader (root ++ '/' :: base) Mode.Dir) rfl
      (by rw [hrootD])
  have hmscxD : (metaCall (World.mk root c)
      (mkPathReader (root ++ '/' :: base) Mode.Dir)).1.mscxFileName = '/' :: p := by
    rw [metaCall_invalid (World.mk root c) hvD]
    show (scanMeta {} (fileList (World.mk root c)
      (mkPathReader (root ++ '/' :: base) Mode.Dir))).mscxFileName = '/' :: p
    rw [scanMeta_mscx, hflD, filter_mscx_slash, hfilt]
    rfl
  have hfind : c.find?
      (fun e => comps (root ++ '/' :: '/' :: p) == comps (root ++ '/' :: e.1))
      = some (p, d) := by
    apply find_of_filter_single c (fun e => isMscx e.1) _ (p, d) hfilt
    · intro e he
      rw [Bool.eq_iff_iff]
      simp only [comps_append_slash, comps_slash_cons, beq_iff_eq,
        List.append_right_inj]
      constructor
      · intro hc
        exact comps_inj_of_canonical (canonical_of_mem hwf he) hpc hc.symm
      · intro hc
        rw [hc]
    · intro e _ he
      show isMscx e.1 = true
      rw [he]
      exact hpm
  have hreadD : (readScoreFile (World.mk root c)
      (mkPathReader (root ++ '/' :: base) Mode.Dir)).1 = d := by
    show fileData (World.mk root c)
      (metaCall (World.mk root c) (mkPathReader (root ++ '/' :: base) Mode.Dir)).2
      (metaCall (World.mk root c)
        (mkPathReader (root ++ '/' :: base) Mode.Dir)).1.mscxFileName = d
    rw [hmscxD, fileData_metaCall]
    rw [fileData_dir (World.mk root c) (mkPathReader (root ++ '/' :: base) Mode.Dir)
      ('/' :: p) rfl, hrootD]
    exact fsReadAbs_find (World.mk root c) (root ++ '/' :: '/' :: p) (p, d) hfind
  exact ⟨⟨hmscxZ, hreadZ⟩, ⟨hmscxD, hreadD⟩⟩

/-- C4 witness: the amended theorem at a concrete two-entry container. -/
theorem c4_witness :
    canonicalContent [(qstr "Score.mscx", [1]), (qstr "Thumbnails/thumbnail.png", [2])] = true
    ∧ [(qstr "Score.mscx", ([1] : Bytes)), (qstr "Thumbnails/thumbnail.png", [2])].filter
        (fun e => isMscx e.1) = [(qstr "Score.mscx", [1])]
    ∧ '/' ∉ qstr "f"
    ∧ (((metaCall (World.mk (qstr "/r") [(qstr "Score.mscx", [1]),
          (qstr "Thumbnails/thumbnail.png", [2])])
          (mkDeviceReader [(qstr "Score.mscx", [1]),
          (qstr "Thumbnails/thumbnail.png", [2])])).1.mscxFileName = qstr "Score.mscx"
        ∧ (readScoreFile (World.mk (qstr "/r") [(qstr "Score.mscx", [1]),
          (qstr "Thumbnails/thumbnail.png", [2])])
          (mkDeviceReader [(qstr "Score.mscx", [1]),
          (qstr "Thumbnails/thumbnail.png", [2])])).1 = [1])
      ∧ ((metaCall (World.mk (qstr "/r") [(qstr "Score.mscx", [1]),
          (qstr "Thumbnails/thumbnail.png", [2])])
          (mkPathReader (qstr "/r" ++ '/' :: qstr "f") Mode.Dir)).1.mscxFileName
            = '/' :: qstr "Score.mscx"
        ∧ (readScoreFile (World.mk (qstr "/r") [(qstr "Score.mscx", [1]),
          (qstr "Thumbnails/thumbnail.png", [2])])
          (mkPathReader (qstr "/r" ++ '/' :: qstr "f") Mode.Dir)).1 = [1])) :=
  ⟨by decide, by decide, by decide,
    c4_amended (qstr "/r") (qstr "f")
      [(qstr "Score.mscx", [1]), (qstr "Thumbnails/thumbnail.png", [2])]
      (qstr "Score.mscx") [1] (by decide) (by decide) (by decide)⟩

/-- C6: a canonical container with no mscx entry resolves an unset (empty)
mscxFileName and readScoreFile returns empty bytes in both modes; both
functions are total, so no error is raised. -/
theorem c6_no_mscx (root base : QStr) (c : Content)
    (hwf : canonicalContent c = true)
    (hfilt : c.filter (fun e => isMscx e.1) = [])
    (hbase : '/' ∉ base) :
    ((metaCall (World.mk root c) (mkDeviceReader c)).1.mscxFileName = []
      ∧ (readScoreFile (World.mk root c) (mkDeviceReader c)).1 = [])
    ∧ ((metaCall (World.mk root c)
          (mkPathReader (root ++ '/' :: base) Mode.Dir)).1.mscxFileName = []
      ∧ (readScoreFile (World.mk root c)
          (mkPathReader (root ++ '/' :: base) Mode.Dir)).1 = []) := by
  have hvZ : (mkDeviceReader c).meta.isValid = false := rfl
  have hmscxZ : (metaCall (World.mk root c) (mkDeviceReader c)).1.mscxFileName = [] := by
    rw [metaCall_invalid (World.mk root c) hvZ]
    show (scanMeta {} (c.map (·.1))).mscxFileName = []
    rw [scanMeta_mscx, filter_mscx_entries, hfilt]
    rfl
  have hreadZ : (readScoreFile (World.mk root c) (mkDeviceReader c)).1 = [] := by
    show fileData (World.mk root c) (metaCall (World.mk root c) (mkDeviceReader c)).2
      (metaCall (World.mk root c) (mkDeviceReader c)).1.mscxFileName = []
    rw [hmscxZ, fileData_metaCall]
    rw [fileData_zip (World.mk root c) (mkDeviceReader c) [] rfl]
    apply zipFileData_none
    rw [List.find?_eq_none]
    intro e he
    simp only [beq_iff_eq]
    intro h0
    have := comps_ne_nil_of_canonical (canonical_of_mem hwf he)
    rw [h0] at this
    exact this rfl
  have hrootD : rootPath (mkPathReader (root ++ '/' :: base) Mode.Dir) = root := by
    show absolutePath (root ++ '/' :: base) = root
    exact absolutePath_append hbase
  have hvD : (mkPathReader (root ++ '/' :: base) Mode.Dir).meta.isValid = false := rfl
  have hflD : fileList (World.mk root c) (mkPathReader (root ++ '/' :: base) Mode.Dir)
      = c.map (fun e => '/' :: e.1) :=
    fileList_dir (World.mk root c) (mkPathReader (root ++ '/' :: base) Mode.Dir) rfl
      (by rw [hrootD])
  have hmscxD : (metaCall (World.mk root c)
      (mkPathReader (root ++ '/' :: base) Mode.Dir)).1.mscxFileName = [] := by
    rw [metaCall_invalid (World.mk root c) hvD]
    show (scanMeta {} (fileList (World.mk root c)
      (mkPathReader (root ++ '/' :: base) Mode.Dir))).mscxFileName = []
    rw [scanMeta_mscx, hflD, filter_mscx_slash, hfilt]
    rfl
  have hreadD : (readScoreFile (World.mk root c)
      (mkPathReader (root ++ '/' :: base) Mode.Dir)).1 = [] := by
    show fileData (World.mk root c)
      (metaCall (World.mk root c) (mkPathReader (root ++ '/' :: base) Mode.Dir)).2
      (metaCall (World.mk root c)
        (mkPathReader (root ++ '/' :: base) Mode.Dir)).1.mscxFileName = []
    rw [hmscxD, fileData_metaCall]
    rw [fileData_dir (World.mk root c) (mkPathReader (root ++ '/' :: base) Mode.Dir)
      [] rfl, hrootD]
    apply fsReadAbs_none
    rw [List.find?_eq_none]
    intro e he
    simp only [comps_append_slash, beq_iff_eq]
    intro h0
    rw [show comps ([] : QStr) = [] from rfl, List.append_nil] at h0
    have h1 : comps e.1 = [] := (List.self_eq_append_right.mp h0).symm ▸ rfl
    exact comps_ne_nil_of_canonical (canonical_of_mem hwf he) h1
  exact ⟨⟨hmscxZ, hreadZ⟩, ⟨hmscxD, hreadD⟩⟩

/-- C6 witness: a container holding only a thumbnail. -/
theorem c6_witness :
    canonicalContent [(qstr "Thumbnails/thumbnail.png", [2])] = true
    ∧ [(qstr "Thumbnails/thumbnail.png", ([2] : Bytes))].filter (fun e => isMscx e.1) = []
    ∧ '/' ∉ qstr "f"
    ∧ (((metaCall (World.mk (qstr "/r") [(qstr "Thumbnails/thumbnail.png", [2])])
          (mkDeviceReader [(qstr "Thumbnails/thumbnail.png", [2])])).1.mscxFileName = []
        ∧ (readScoreFile (World.mk (qstr "/r") [(qstr "Thumbnails/thumbnail.png", [2])])
          (mkDeviceReader [(qstr "Thumbnails/thumbnail.png", [2])])).1 = [])
      ∧ ((metaCall (World.mk (qstr "/r") [(qstr "Thumbnails/thumbnail.png", [2])])
          (mkPathReader (qstr "/r" ++ '/' :: qstr "f") Mode.Dir)).1.mscxFileName = []
        ∧ (readScoreFile (World.mk (qstr "/r") [(qstr "Thumbnails/thumbnail.png", [2])])
          (mkPathReader (qstr "/r" ++ '/' :: qstr "f") Mode.Dir)).1 = [])) :=
  ⟨by decide, by decide, by decide,
    c6_no_mscx (qstr "/r") (qstr "f") [(qstr "Thumbnails/thumbnail.png", [2])]
      (by decide) (by decide) (by decide)⟩

end Mscz
